import Mathlib

/-!
Verification of the `default_pool` layer of `src/entt/entity/pool.hpp`.

The pool composes a sparse-set storage with three signal handlers
(`construction`, `destruction`, `update`) and exposes `emplace`, `insert`,
`erase` (single and range overloads) and `patch`.  The storage container and
the signal handler live outside the provided sources, so they are modelled
from the spec's description of their interfaces (section 2 and section 6 of
the spec): storage offers `emplace`, `insert(range)`, `erase`, `clear`,
`get` and contiguous iteration; a signal handler holds an ordered listener
list with `publish` and `empty`.

Entities are `Nat`; component values are a type parameter `α`.  A listener
is modelled as a transformer of the storage state (in the code a listener
receives `(registry&, entity)` and may re-enter the pool through the
registry, i.e. mutate the very storage being operated on).  Every pool
operation returns the final storage together with a trace of observable
events: calls to `sigh::publish`, individual listener invocations, and the
storage-level operations performed, in execution order.
-/

set_option autoImplicit false

/-- Signal kinds of the pool: construction, update, destruction. -/
inductive SigKind : Type
| construct
| updateEv
| destroy
deriving DecidableEq

/-- Observable events of a pool operation, in execution order: a call to
`sigh::publish`, a single listener invocation inside a publish, and the
storage-level primitives the pool calls. -/
inductive Ev : Type
| publishCall (k : SigKind) (e : Nat)
| invoke (k : SigKind) (e : Nat)
| storeEmplace (e : Nat)
| storeInsert (es : List Nat)
| storeErase (e : Nat)
| storeClear
deriving DecidableEq

/-- Modelled from the spec: the underlying sparse-set `storage` container
(not part of the provided sources).  `entries` is the dense array in
iteration order; an entity occurs at most once in a well-formed storage. -/
structure Storage (α : Type) where
  entries : List (Nat × α)
deriving DecidableEq

namespace Storage

/-- Membership test (the sparse-set `contains`). -/
def contains {α : Type} (st : Storage α) (e : Nat) : Bool :=
  st.entries.any (fun q => q.1 == e)

/-- Modelled from the spec: `get(entity)` returns the component value slot
associated with the entity. -/
def get {α : Type} (st : Storage α) (e : Nat) : Option α :=
  (st.entries.find? (fun q => q.1 == e)).map Prod.snd

/-- Modelled from the spec: `emplace(entity, args...)` appends a new entry
to the dense array. -/
def emplace {α : Type} (st : Storage α) (e : Nat) (v : α) : Storage α :=
  ⟨st.entries ++ [(e, v)]⟩

/-- Modelled from the spec: `insert(first, last, args...)` appends one entry
per entity of the range as a single batch operation. -/
def insert {α : Type} (st : Storage α) (es : List Nat) (v : α) : Storage α :=
  ⟨st.entries ++ es.map (fun e => (e, v))⟩

/-- Modelled from the spec: `erase(entity)` removes the entry of the given
entity (the spec fixes no particular residual order, so removal is modelled
as dropping the matching entry). -/
def erase {α : Type} (st : Storage α) (e : Nat) : Storage α :=
  ⟨st.entries.filter (fun q => q.1 != e)⟩

/-- Modelled from the spec: `clear()` drops every entry at once. -/
def clear {α : Type} (_st : Storage α) : Storage α :=
  ⟨[]⟩

/-- In-place mutation of the value stored for an entity (what a `Type &`
reference obtained from `get` allows the caller to do). -/
def modify {α : Type} (st : Storage α) (e : Nat) (f : α → α) : Storage α :=
  ⟨st.entries.map (fun q => if q.1 == e then (q.1, f q.2) else q)⟩

/-- Iteration order of the currently present entities (`begin()/end()`). -/
def keys {α : Type} (st : Storage α) : List Nat :=
  st.entries.map Prod.fst

end Storage

/-- A registered listener.  In the code its signature is
`void(basic_registry<Entity> &, Entity)` and it may re-enter the pool via
the registry; here it transforms the storage state, given the entity the
signal is about. -/
abbrev Listener (α : Type) : Type := Nat → Storage α → Storage α

/-- Modelled from the spec: the signal handler `sigh`, an ordered list of
listeners invoked in subscription order by `publish`. -/
abbrev sigh (α : Type) : Type := List (Listener α)

namespace sigh

/-- Whether no listener is registered (`sigh::empty`). -/
def empty {α : Type} (s : sigh α) : Bool :=
  match s with
  | [] => true
  | _ :: _ => false

/-- Run every listener in subscription order on the storage state. -/
def run {α : Type} (s : sigh α) (e : Nat) (st : Storage α) : Storage α :=
  List.foldl (fun acc l => l e acc) st s

/-- One call to `sigh::publish(owner, entity)`: every listener runs in
order; the trace records the publish call and one invocation per
listener. -/
def publish {α : Type} (s : sigh α) (k : SigKind) (e : Nat) (st : Storage α) :
    Storage α × List Ev :=
  (run s e st, Ev.publishCall k e :: List.map (fun _ => Ev.invoke k e) s)

/-- The storage states handed to the successive listeners during one
publish: the first listener sees the initial state, each next listener sees
its predecessor's output. -/
def listenerInputs {α : Type} (s : sigh α) (e : Nat) (st : Storage α) :
    List (Storage α) :=
  match s with
  | [] => []
  | l :: rest => st :: listenerInputs rest e (l e st)

end sigh

/-- The `default_pool`: one storage plus the three signal handlers.  The
code derives from `storage<Entity, Type>`; the inheritance is embedded as a
field. -/
structure default_pool (α : Type) where
  storage : Storage α
  construction : sigh α
  destruction : sigh α
  update : sigh α

/-- Result of a pool operation returning `decltype(auto)`: final storage,
event trace, and the returned reference (as the value it designates;
`none` models a dangling/no lookup, never reached under the preconditions). -/
structure OpResult (α : Type) where
  state : Storage α
  events : List Ev
  ret : Option α

namespace default_pool

/-- Embeds `default_pool::emplace` for a non-zero-size component:
`storage::emplace(entity, args...)`, then `construction.publish(owner,
entity)`, then `return this->get(entity)`. -/
def emplace {α : Type} (p : default_pool α) (e : Nat) (v : α) : OpResult α :=
  let st1 := Storage.emplace p.storage e v
  let pub := sigh.publish p.construction SigKind.construct e st1
  ⟨pub.1, Ev.storeEmplace e :: pub.2, Storage.get pub.1 e⟩

/-- Publishing one signal per entity of a range, in range order (the
publish loops of `insert` and of the range `erase` fast path). -/
def publishEach {α : Type} (s : sigh α) (k : SigKind) (es : List Nat)
    (st : Storage α) : Storage α × List Ev :=
  match es with
  | [] => (st, [])
  | e :: rest =>
    let r1 := sigh.publish s k e st
    let r2 := publishEach s k rest r1.1
    (r2.1, r1.2 ++ r2.2)

/-- Embeds `default_pool::insert`: `storage::insert(first, last, args...)`
as one batch call, then, only when `!construction.empty()`, one publish per
inserted entity in range order. -/
def insert {α : Type} (p : default_pool α) (es : List Nat) (v : α) :
    Storage α × List Ev :=
  let st1 := Storage.insert p.storage es v
  if sigh.empty p.construction then
    (st1, [Ev.storeInsert es])
  else
    let pub := publishEach p.construction SigKind.construct es st1
    (pub.1, Ev.storeInsert es :: pub.2)

/-- Core of the single-entity `erase`: `destruction.publish(owner, entity)`
first, `storage::erase(entity)` second. -/
def eraseOne {α : Type} (ds : sigh α) (st : Storage α) (e : Nat) :
    Storage α × List Ev :=
  let pub := sigh.publish ds SigKind.destroy e st
  (Storage.erase pub.1 e, pub.2 ++ [Ev.storeErase e])

/-- Embeds `default_pool::erase(owner, entity)`. -/
def erase {α : Type} (p : default_pool α) (e : Nat) : Storage α × List Ev :=
  eraseOne p.destruction p.storage e

/-- The slow path of the range `erase`: one call to the single-entity
`erase` per entity of the range, threading the storage state. -/
def eraseSeqAux {α : Type} (ds : sigh α) (st : Storage α) (es : List Nat) :
    Storage α × List Ev :=
  match es with
  | [] => (st, [])
  | e :: rest =>
    let r1 := eraseOne ds st e
    let r2 := eraseSeqAux ds r1.1 rest
    (r2.1, r1.2 ++ r2.2)

/-- Erasing a range entity by entity through the single-entity `erase`. -/
def eraseSeq {α : Type} (p : default_pool α) (es : List Nat) :
    Storage α × List Ev :=
  eraseSeqAux p.destruction p.storage es

/-- Embeds `default_pool::erase(owner, first, last)`: when
`std::distance(first, last) == std::distance(begin(), end())` the fast path
publishes per range entity (only when `!destruction.empty()`) and then
calls `this->clear()`; otherwise each entity goes through the single-entity
`erase`. -/
def eraseRange {α : Type} (p : default_pool α) (rng : List Nat) :
    Storage α × List Ev :=
  if rng.length = p.storage.entries.length then
    let pub :=
      if sigh.empty p.destruction then (p.storage, ([] : List Ev))
      else publishEach p.destruction SigKind.destroy rng p.storage
    (Storage.clear pub.1, pub.2 ++ [Ev.storeClear])
  else
    eraseSeq p rng

/-- Applying the patch functions in argument order, each one mutating the
stored value in place (the fold expression `(func(this->get(entity)), ...)`). -/
def applyFuncs {α : Type} (st : Storage α) (e : Nat) (funcs : List (α → α)) :
    Storage α :=
  List.foldl (fun s f => Storage.modify s e f) st funcs

/-- Embeds `default_pool::patch` for a non-zero-size component: apply every
function in order to the stored value, then `update.publish(owner, entity)`,
then `return this->get(entity)`. -/
def patch {α : Type} (p : default_pool α) (e : Nat) (funcs : List (α → α)) :
    OpResult α :=
  let st1 := applyFuncs p.storage e funcs
  let pub := sigh.publish p.update SigKind.updateEv e st1
  ⟨pub.1, pub.2, Storage.get pub.1 e⟩

/-- Embeds `default_pool::emplace` with component construction that can
fail.  Modelled from the spec: storage registers no half-constructed entry,
the failure propagates unchanged, and it happens before the publish. -/
def emplaceTry {α : Type} (p : default_pool α) (e : Nat)
    (mk : Except String α) : Except String (OpResult α) :=
  match mk with
  | Except.error err => Except.error err
  | Except.ok v => Except.ok (emplace p e v)

/-- Embeds `default_pool::insert` with component construction that can
fail, in the same way as `emplaceTry`. -/
def insertTry {α : Type} (p : default_pool α) (es : List Nat)
    (mk : Except String α) : Except String (Storage α × List Ev) :=
  match mk with
  | Except.error err => Except.error err
  | Except.ok v => Except.ok (insert p es v)

end default_pool

/-- Modelled from the spec: for a zero-size (tag) component the storage
keeps no value slots, only the entity set (`is_eto_eligible_v<Type>`). -/
structure eto_storage where
  entries : List Nat
deriving DecidableEq

/-- The pool instantiated at a zero-size component: listener behaviour is
irrelevant to the claims about this branch, so the three signal handlers
are represented by their listener counts. -/
structure eto_pool where
  storage : eto_storage
  constructionN : Nat
  destructionN : Nat
  updateN : Nat
deriving DecidableEq

/-- One `sigh::publish` call for a counted signal handler: the trace holds
the publish call and one invocation per registered listener. -/
def etoPublish (n : Nat) (k : SigKind) (e : Nat) : List Ev :=
  Ev.publishCall k e :: List.replicate n (Ev.invoke k e)

namespace eto_pool

/-- Embeds the zero-size branch of `default_pool::emplace`: storage emplace
then construction publish; nothing is returned (the result carries no value
component). -/
def emplaceEto (p : eto_pool) (e : Nat) : eto_storage × List Ev :=
  (⟨p.storage.entries ++ [e]⟩,
   Ev.storeEmplace e :: etoPublish p.constructionN SigKind.construct e)

/-- Embeds the zero-size branch of `default_pool::patch`
(`if constexpr(is_eto_eligible_v<object_type>)`): the functions are
`[[maybe_unused]]`, only `update.publish(owner, entity)` runs, and nothing
is returned. -/
def patchEto (p : eto_pool) (e : Nat) (_funcs : List (Unit → Unit)) :
    eto_storage × List Ev :=
  (p.storage, etoPublish p.updateN SigKind.updateEv e)

end eto_pool

/-- Entities of the `publishCall` events of the given kind, in trace order. -/
def pubCalls (k : SigKind) (evs : List Ev) : List Nat :=
  evs.filterMap (fun ev =>
    match ev with
    | Ev.publishCall k2 e => if k2 = k then some e else none
    | _ => none)

/-- Number of individual listener invocations in a trace. -/
def countInvokes (evs : List Ev) : Nat :=
  (evs.filter (fun ev =>
    match ev with
    | Ev.invoke _ _ => true
    | _ => false)).length

/-- Number of storage-level `clear` calls in a trace. -/
def countClears (evs : List Ev) : Nat :=
  (evs.filter (fun ev =>
    match ev with
    | Ev.storeClear => true
    | _ => false)).length

/-- Number of storage-level single-entity `erase` calls in a trace. -/
def countErases (evs : List Ev) : Nat :=
  (evs.filter (fun ev =>
    match ev with
    | Ev.storeErase _ => true
    | _ => false)).length

/-- Listeners that observe but do not mutate (probe listeners). -/
def pureListeners {α : Type} (s : sigh α) : Prop :=
  ∀ l ∈ s, ∀ e st, l e st = st

example :
    default_pool.emplace (default_pool.mk ⟨[]⟩ [] [] []) 5 (7 : Nat) =
      ⟨⟨[(5, 7)]⟩, [Ev.storeEmplace 5, Ev.publishCall SigKind.construct 5], some 7⟩ := by
  rfl

section Lemmas

variable {α : Type}

theorem Storage.contains_iff_mem_keys (st : Storage α) (e : Nat) :
    st.contains e = true ↔ e ∈ st.keys := by
  simp [Storage.contains, Storage.keys, List.any_eq_true, List.mem_map]

theorem Storage.mem_entries_erase (st : Storage α) (e : Nat) (q : Nat × α) :
    q ∈ (Storage.erase st e).entries ↔ q ∈ st.entries ∧ q.1 ≠ e := by
  simp [Storage.erase, List.mem_filter]

theorem Storage.contains_erase_self (st : Storage α) (e : Nat) :
    (Storage.erase st e).contains e = false := by
  rw [Bool.eq_false_iff]
  intro h
  rw [Storage.contains, List.any_eq_true] at h
  rcases h with ⟨q, hq, hqe⟩
  rw [Storage.mem_entries_erase] at hq
  exact hq.2 (by simpa using hqe)

theorem Storage.get_emplace_self (st : Storage α) (e : Nat) (v : α)
    (h : st.contains e = false) :
    (Storage.emplace st e v).get e = some v := by
  rw [Storage.contains] at h
  rw [Storage.emplace, Storage.get, List.find?_append]
  have hnone : st.entries.find? (fun q => q.1 == e) = none := by
    rw [List.find?_eq_none]
    intro q hq
    intro hqe
    rw [List.any_eq_false] at h
    exact h q hq hqe
  rw [hnone]
  simp

theorem Storage.get_modify_self (st : Storage α) (e : Nat) (f : α → α) :
    (Storage.modify st e f).get e = (st.get e).map f := by
  rw [Storage.modify, Storage.get, Storage.get]
  induction st.entries with
  | nil => simp
  | cons q t ih =>
    by_cases hq : q.1 = e
    · simp [List.find?, hq]
    · have hq2 : (q.1 == e) = false := by
        simpa using hq
      simp only [List.map_cons, List.find?, hq2, if_neg]
      rw [if_neg (by simpa using hq)]
      simpa [hq2] using ih

theorem sigh.run_pure (s : sigh α) (e : Nat) (st : Storage α)
    (h : pureListeners s) : sigh.run s e st = st := by
  induction s generalizing st with
  | nil => rfl
  | cons l t ih =>
    rw [sigh.run, List.foldl_cons, h l (by simp)]
    exact ih st (fun l2 hl2 => h l2 (by simp [hl2]))

theorem sigh.listenerInputs_pure (s : sigh α) (e : Nat) (st : Storage α)
    (h : pureListeners s) :
    ∀ st2 ∈ sigh.listenerInputs s e st, st2 = st := by
  induction s generalizing st with
  | nil =>
    intro st2 h2
    simp [sigh.listenerInputs] at h2
  | cons l t ih =>
    intro st2 h2
    rw [sigh.listenerInputs, List.mem_cons] at h2
    rcases h2 with h2 | h2
    · exact h2
    · rw [h l (by simp)] at h2
      exact ih st (fun l2 hl2 => h l2 (by simp [hl2])) st2 h2

theorem sigh.empty_eq_true_iff (s : sigh α) : sigh.empty s = true ↔ s = [] := by
  cases s <;> simp [sigh.empty]

theorem pubCalls_append (k : SigKind) (l1 l2 : List Ev) :
    pubCalls k (l1 ++ l2) = pubCalls k l1 ++ pubCalls k l2 := by
  simp [pubCalls, List.filterMap_append]

theorem pubCalls_publish_self (s : sigh α) (k : SigKind) (e : Nat)
    (st : Storage α) : pubCalls k (sigh.publish s k e st).2 = [e] := by
  rw [sigh.publish, pubCalls]
  rw [List.filterMap_cons]
  simp only [if_pos rfl]
  induction s with
  | nil => rfl
  | cons l t ih => simpa using ih

theorem countInvokes_append (l1 l2 : List Ev) :
    countInvokes (l1 ++ l2) = countInvokes l1 + countInvokes l2 := by
  simp [countInvokes, List.filter_append]

theorem countClears_append (l1 l2 : List Ev) :
    countClears (l1 ++ l2) = countClears l1 + countClears l2 := by
  simp [countClears, List.filter_append]

theorem countErases_append (l1 l2 : List Ev) :
    countErases (l1 ++ l2) = countErases l1 + countErases l2 := by
  simp [countErases, List.filter_append]

theorem countInvokes_publish (s : sigh α) (k : SigKind) (e : Nat)
    (st : Storage α) : countInvokes (sigh.publish s k e st).2 = s.length := by
  rw [sigh.publish, countInvokes]
  induction s with
  | nil => rfl
  | cons l t ih => simpa [countInvokes] using ih

theorem countClears_publish (s : sigh α) (k : SigKind) (e : Nat)
    (st : Storage α) : countClears (sigh.publish s k e st).2 = 0 := by
  rw [sigh.publish, countClears]
  induction s with
  | nil => rfl
  | cons l t ih => simpa [countClears] using ih

theorem countErases_publish (s : sigh α) (k : SigKind) (e : Nat)
    (st : Storage α) : countErases (sigh.publish s k e st).2 = 0 := by
  rw [sigh.publish, countErases]
  induction s with
  | nil => rfl
  | cons l t ih => simpa [countErases] using ih

end Lemmas

section TraceLemmas

variable {α : Type}

theorem storeClear_not_mem_publish (s : sigh α) (k : SigKind) (e : Nat)
    (st : Storage α) : Ev.storeClear ∉ (sigh.publish s k e st).2 := by
  simp [sigh.publish]

theorem pubCalls_publishEach (s : sigh α) (k : SigKind) (es : List Nat)
    (st : Storage α) :
    pubCalls k (default_pool.publishEach s k es st).2 = es := by
  induction es generalizing st with
  | nil => rfl
  | cons e rest ih =>
    rw [default_pool.publishEach]
    simp only
    rw [pubCalls_append, pubCalls_publish_self, ih]
    rfl

theorem countInvokes_publishEach (s : sigh α) (k : SigKind) (es : List Nat)
    (st : Storage α) :
    countInvokes (default_pool.publishEach s k es st).2 = es.length * s.length := by
  induction es generalizing st with
  | nil => simp [default_pool.publishEach, countInvokes]
  | cons e rest ih =>
    rw [default_pool.publishEach]
    simp only
    rw [countInvokes_append, countInvokes_publish, ih]
    rw [List.length_cons, Nat.succ_mul, Nat.add_comm]

theorem countClears_publishEach (s : sigh α) (k : SigKind) (es : List Nat)
    (st : Storage α) :
    countClears (default_pool.publishEach s k es st).2 = 0 := by
  induction es generalizing st with
  | nil => rfl
  | cons e rest ih =>
    rw [default_pool.publishEach]
    simp only
    rw [countClears_append, countClears_publish, ih]

theorem countErases_publishEach (s : sigh α) (k : SigKind) (es : List Nat)
    (st : Storage α) :
    countErases (default_pool.publishEach s k es st).2 = 0 := by
  induction es generalizing st with
  | nil => rfl
  | cons e rest ih =>
    rw [default_pool.publishEach]
    simp only
    rw [countErases_append, countErases_publish, ih]

theorem eraseOne_snd (ds : sigh α) (st : Storage α) (e : Nat) :
    (default_pool.eraseOne ds st e).2 =
      (sigh.publish ds SigKind.destroy e st).2 ++ [Ev.storeErase e] := rfl

theorem countInvokes_eraseSeqAux (ds : sigh α) (st : Storage α) (es : List Nat) :
    countInvokes (default_pool.eraseSeqAux ds st es).2 = es.length * ds.length := by
  induction es generalizing st with
  | nil => simp [default_pool.eraseSeqAux, countInvokes]
  | cons e rest ih =>
    rw [default_pool.eraseSeqAux]
    simp only
    rw [countInvokes_append, eraseOne_snd, countInvokes_append,
      countInvokes_publish, ih]
    have h1 : countInvokes [Ev.storeErase e] = 0 := rfl
    rw [h1, List.length_cons, Nat.succ_mul, Nat.add_comm, Nat.add_zero]

theorem countClears_eraseSeqAux (ds : sigh α) (st : Storage α) (es : List Nat) :
    countClears (default_pool.eraseSeqAux ds st es).2 = 0 := by
  induction es generalizing st with
  | nil => rfl
  | cons e rest ih =>
    rw [default_pool.eraseSeqAux]
    simp only
    rw [countClears_append, eraseOne_snd, countClears_append,
      countClears_publish, ih]
    simp [countClears]

theorem countErases_eraseSeqAux (ds : sigh α) (st : Storage α) (es : List Nat) :
    countErases (default_pool.eraseSeqAux ds st es).2 = es.length := by
  induction es generalizing st with
  | nil => rfl
  | cons e rest ih =>
    rw [default_pool.eraseSeqAux]
    simp only
    rw [countErases_append, eraseOne_snd, countErases_append,
      countErases_publish, ih]
    simp [countErases, Nat.add_comm]

theorem storeClear_not_mem_eraseSeqAux (ds : sigh α) (st : Storage α)
    (es : List Nat) :
    Ev.storeClear ∉ (default_pool.eraseSeqAux ds st es).2 := by
  induction es generalizing st with
  | nil => simp [default_pool.eraseSeqAux]
  | cons e rest ih =>
    rw [default_pool.eraseSeqAux]
    simp only [List.mem_append]
    intro h
    rcases h with h | h
    · rw [eraseOne_snd, List.mem_append] at h
      rcases h with h | h
      · exact storeClear_not_mem_publish ds SigKind.destroy e st h
      · simp at h
    · exact ih _ h

theorem eraseSeqAux_fst_pure (ds : sigh α) (st : Storage α) (es : List Nat)
    (h : pureListeners ds) :
    (default_pool.eraseSeqAux ds st es).1 = List.foldl Storage.erase st es := by
  induction es generalizing st with
  | nil => rfl
  | cons e rest ih =>
    rw [default_pool.eraseSeqAux]
    simp only
    rw [List.foldl_cons]
    have h1 : (default_pool.eraseOne ds st e).1 = Storage.erase st e := by
      rw [default_pool.eraseOne]
      simp only
      rw [sigh.publish]
      simp only
      rw [sigh.run_pure ds e st h]
    rw [h1]
    exact ih (Storage.erase st e)

theorem foldl_erase_entries_nil (es : List Nat) (st : Storage α)
    (h : ∀ k ∈ st.keys, k ∈ es) :
    (List.foldl Storage.erase st es).entries = [] := by
  induction es generalizing st with
  | nil =>
    cases hst : st.entries with
    | nil => simpa [hst] using rfl
    | cons q t =>
      exfalso
      have : q.1 ∈ st.keys := by
        rw [Storage.keys, hst]
        simp
      simpa using h q.1 this
  | cons e rest ih =>
    rw [List.foldl_cons]
    refine ih (Storage.erase st e) ?_
    intro k hk
    rw [Storage.keys, List.mem_map] at hk
    rcases hk with ⟨q, hq, rfl⟩
    rw [Storage.mem_entries_erase] at hq
    have : q.1 ∈ st.keys := by
      rw [Storage.keys, List.mem_map]
      exact ⟨q, hq.1, rfl⟩
    have h2 := h q.1 this
    rw [List.mem_cons] at h2
    rcases h2 with h2 | h2
    · exact absurd h2 hq.2
    · exact h2

end TraceLemmas

section ClaimSupport

variable {α : Type}

theorem pubCalls_nil (k : SigKind) : pubCalls k [] = [] := rfl

theorem pubCalls_cons_pub_same (k : SigKind) (e : Nat) (t : List Ev) :
    pubCalls k (Ev.publishCall k e :: t) = e :: pubCalls k t := by
  simp [pubCalls]

theorem pubCalls_cons_invoke (k k2 : SigKind) (e : Nat) (t : List Ev) :
    pubCalls k (Ev.invoke k2 e :: t) = pubCalls k t := by
  simp [pubCalls]

theorem pubCalls_cons_storeEmplace (k : SigKind) (e : Nat) (t : List Ev) :
    pubCalls k (Ev.storeEmplace e :: t) = pubCalls k t := by
  simp [pubCalls]

theorem pubCalls_cons_storeInsert (k : SigKind) (es : List Nat) (t : List Ev) :
    pubCalls k (Ev.storeInsert es :: t) = pubCalls k t := by
  simp [pubCalls]

theorem pubCalls_replicate_invoke (k k2 : SigKind) (n : Nat) (e : Nat) :
    pubCalls k (List.replicate n (Ev.invoke k2 e)) = [] := by
  induction n with
  | zero => rfl
  | succ m ih => rw [List.replicate_succ, pubCalls_cons_invoke, ih]

theorem pubCalls_etoPublish (n : Nat) (k : SigKind) (e : Nat) :
    pubCalls k (etoPublish n k e) = [e] := by
  rw [etoPublish, pubCalls_cons_pub_same, pubCalls_replicate_invoke]

theorem get_applyFuncs (funcs : List (α → α)) (st : Storage α) (e : Nat)
    (v : α) (h : Storage.get st e = some v) :
    Storage.get (default_pool.applyFuncs st e funcs) e =
      some (funcs.foldl (fun a f => f a) v) := by
  induction funcs generalizing st v with
  | nil => simpa [default_pool.applyFuncs] using h
  | cons f fs ih =>
    have h2 : Storage.get (Storage.modify st e f) e = some (f v) := by
      rw [Storage.get_modify_self, h]
      rfl
    have h3 := ih (Storage.modify st e f) (f v) h2
    rw [default_pool.applyFuncs] at h3 ⊢
    rw [List.foldl_cons]
    simpa using h3

/-- A listener that overwrites the component stored for entity `e` with the
value `w` (the kind of in-place mutation a listener can perform through the
registry during a publish). -/
def setValueListener (e : Nat) (w : α) : Listener α :=
  fun _ st => Storage.modify st e (fun _ => w)

end ClaimSupport

/-- C8: if component construction fails inside `emplace` or inside the
storage-level batch insert of `insert`, the failure propagates unchanged,
no construction signal is published and no state change happens (the result
carries no event and no storage, so the pool is as if the operation never
started); on success the operations behave as their non-failing forms. -/
theorem construction_failure_propagates {α : Type} (p : default_pool α)
    (e : Nat) (es : List Nat) (err : String) (v : α) :
    default_pool.emplaceTry p e (Except.error err) = Except.error err ∧
    default_pool.insertTry p es (Except.error err) = Except.error err ∧
    default_pool.emplaceTry p e (Except.ok v) =
      Except.ok (default_pool.emplace p e v) ∧
    default_pool.insertTry p es (Except.ok v) =
      Except.ok (default_pool.insert p es v) :=
  ⟨rfl, rfl, rfl, rfl⟩

/-- C10: for a non-zero-size component the value returned by `emplace` and
by `patch` is obtained by a fresh `get` on the storage after the signal has
been published, so it reflects an in-place modification made by a listener
during the publish: with a single construction listener that overwrites the
value at `e` with `w`, `emplace` returns `w`, not the constructed value. -/
theorem emplace_patch_return_fresh_lookup {α : Type} (p : default_pool α)
    (e : Nat) (v w : α) (funcs : List (α → α))
    (h : Storage.contains p.storage e = false) :
    (default_pool.emplace p e v).ret =
      Storage.get (default_pool.emplace p e v).state e ∧
    (default_pool.patch p e funcs).ret =
      Storage.get (default_pool.patch p e funcs).state e ∧
    (p.construction = [setValueListener e w] →
      (default_pool.emplace p e v).ret = some w) := by
  refine ⟨rfl, rfl, ?_⟩
  intro hc
  show Storage.get
    (sigh.run p.construction e (Storage.emplace p.storage e v)) e = some w
  rw [hc]
  show Storage.get
    (Storage.modify (Storage.emplace p.storage e v) e (fun _ => w)) e = some w
  rw [Storage.get_modify_self, Storage.get_emplace_self p.storage e v h]
  rfl

/-- C4: `emplace` on an absent entity stores the component value first and
publishes exactly one construction signal for the entity afterwards; with
no listener registered the returned reference designates the newly stored
value; the zero-size instantiation performs the same store-then-publish
sequence but returns nothing (its result carries no value component). -/
theorem emplace_constructs_then_signals {α : Type} (p : default_pool α)
    (e : Nat) (v : α) (q : eto_pool) (e2 : Nat)
    (h : Storage.contains p.storage e = false) :
    (default_pool.emplace p e v).events =
      Ev.storeEmplace e ::
        (sigh.publish p.construction SigKind.construct e
          (Storage.emplace p.storage e v)).2 ∧
    pubCalls SigKind.construct (default_pool.emplace p e v).events = [e] ∧
    (p.construction = [] → (default_pool.emplace p e v).ret = some v) ∧
    (eto_pool.emplaceEto q e2).1.entries = q.storage.entries ++ [e2] ∧
    (eto_pool.emplaceEto q e2).2 =
      Ev.storeEmplace e2 :: etoPublish q.constructionN SigKind.construct e2 ∧
    pubCalls SigKind.construct (eto_pool.emplaceEto q e2).2 = [e2] := by
  refine ⟨rfl, ?_, ?_, rfl, rfl, ?_⟩
  · show pubCalls SigKind.construct
      (Ev.storeEmplace e ::
        (sigh.publish p.construction SigKind.construct e
          (Storage.emplace p.storage e v)).2) = [e]
    rw [pubCalls_cons_storeEmplace, pubCalls_publish_self]
  · intro hc
    show Storage.get
      (sigh.run p.construction e (Storage.emplace p.storage e v)) e = some v
    rw [hc]
    show Storage.get (Storage.emplace p.storage e v) e = some v
    exact Storage.get_emplace_self p.storage e v h
  · show pubCalls SigKind.construct
      (Ev.storeEmplace e2 :: etoPublish q.constructionN SigKind.construct e2) = [e2]
    rw [pubCalls_cons_storeEmplace, pubCalls_etoPublish]

/-- C5: `patch` on a non-zero-size component with the entity present
applies every supplied function exactly once, in argument order, to the
stored value; it then publishes exactly one update signal for the entity,
on the fully mutated state; with no update listener the returned reference
designates the value with every mutation applied. -/
theorem patch_applies_funcs_then_signals {α : Type} (p : default_pool α)
    (e : Nat) (v : α) (funcs : List (α → α))
    (h : Storage.get p.storage e = some v) :
    Storage.get (default_pool.applyFuncs p.storage e funcs) e =
      some (funcs.foldl (fun a f => f a) v) ∧
    (default_pool.patch p e funcs).events =
      (sigh.publish p.update SigKind.updateEv e
        (default_pool.applyFuncs p.storage e funcs)).2 ∧
    pubCalls SigKind.updateEv (default_pool.patch p e funcs).events = [e] ∧
    (p.update = [] →
      (default_pool.patch p e funcs).ret =
        some (funcs.foldl (fun a f => f a) v)) := by
  refine ⟨get_applyFuncs funcs p.storage e v h, rfl, ?_, ?_⟩
  · show pubCalls SigKind.updateEv
      (sigh.publish p.update SigKind.updateEv e
        (default_pool.applyFuncs p.storage e funcs)).2 = [e]
    rw [pubCalls_publish_self]
  · intro hu
    show Storage.get
      (sigh.run p.update e (default_pool.applyFuncs p.storage e funcs)) e =
        some (funcs.foldl (fun a f => f a) v)
    rw [hu]
    show Storage.get (default_pool.applyFuncs p.storage e funcs) e =
      some (funcs.foldl (fun a f => f a) v)
    exact get_applyFuncs funcs p.storage e v h

/-- C7: `patch` on a zero-size component never touches a stored value: its
result does not depend on the supplied functions at all, the storage is
returned unchanged, exactly one update signal is published for the entity,
and nothing is returned (the result carries no value component). -/
theorem patch_eto_signals_without_value (p : eto_pool) (e : Nat)
    (funcs : List (Unit → Unit)) (h : e ∈ p.storage.entries) :
    eto_pool.patchEto p e funcs = eto_pool.patchEto p e [] ∧
    (eto_pool.patchEto p e funcs).1 = p.storage ∧
    pubCalls SigKind.updateEv (eto_pool.patchEto p e funcs).2 = [e] ∧
    (eto_pool.patchEto p e funcs).2 =
      etoPublish p.updateN SigKind.updateEv e := by
  refine ⟨rfl, rfl, ?_, rfl⟩
  show pubCalls SigKind.updateEv (etoPublish p.updateN SigKind.updateEv e) = [e]
  rw [pubCalls_etoPublish]

/-- C2: `erase` on a present entity publishes the destruction signal while
the entity is still in storage: every state handed to a destruction probe
listener still contains the entity, the trace shows the publish call and
all listener invocations strictly before the storage removal, and only the
final state lacks the entity. -/
theorem erase_signal_before_removal {α : Type} (p : default_pool α)
    (e : Nat) (h : Storage.contains p.storage e = true)
    (hpure : pureListeners p.destruction) :
    (∀ st2 ∈ sigh.listenerInputs p.destruction e p.storage,
      Storage.contains st2 e = true) ∧
    (default_pool.erase p e).2 =
      (sigh.publish p.destruction SigKind.destroy e p.storage).2 ++
        [Ev.storeErase e] ∧
    Storage.contains (default_pool.erase p e).1 e = false := by
  refine ⟨?_, rfl, ?_⟩
  · intro st2 h2
    rw [sigh.listenerInputs_pure p.destruction e p.storage hpure st2 h2]
    exact h
  · show Storage.contains
      (Storage.erase (sigh.run p.destruction e p.storage) e) e = false
    exact Storage.contains_erase_self _ e

/-- C3: `insert` on a disjoint range performs the storage-level batch
insert first (it is the first event of the trace, a single batch
operation), then publishes exactly one construction signal per inserted
entity in range order when at least one construction listener is
registered; with zero listeners the publish loop is skipped entirely and
the trace holds nothing but the batch insert. -/
theorem insert_publishes_after_batch_insert {α : Type} (p : default_pool α)
    (es : List Nat) (v : α)
    (h : ∀ e ∈ es, Storage.contains p.storage e = false) :
    (default_pool.insert p es v).2.head? = some (Ev.storeInsert es) ∧
    pubCalls SigKind.construct (default_pool.insert p es v).2 =
      (if sigh.empty p.construction = true then [] else es) ∧
    (p.construction = [] →
      (default_pool.insert p es v).2 = [Ev.storeInsert es]) := by
  cases hc : p.construction with
  | nil =>
    refine ⟨?_, ?_, ?_⟩
    · rw [default_pool.insert, hc]
      rfl
    · rw [default_pool.insert, hc]
      rfl
    · intro hnil
      rw [default_pool.insert, hc]
      rfl
  | cons l t =>
    have hne : sigh.empty p.construction = false := by
      rw [hc]
      rfl
    refine ⟨?_, ?_, ?_⟩
    · rw [default_pool.insert, hne]
      rfl
    · rw [default_pool.insert, hne]
      simp only [Bool.false_eq_true, if_false]
      show pubCalls SigKind.construct
        (Ev.storeInsert es ::
          (default_pool.publishEach p.construction SigKind.construct es
            (Storage.insert p.storage es v)).2) = es
      rw [pubCalls_cons_storeInsert, pubCalls_publishEach]
    · intro hnil
      exact (List.cons_ne_nil l t hnil).elim

/-- C9: the bulk-clear path of the range `erase` is selected exactly when
the length of the range equals the pool's current entity count; the
selection never consults which entities the range names, so any
count-matching range is treated as a full clear (the biconditional holds
with no presence assumption on the range at all). -/
theorem eraseRange_fast_path_iff_count_match {α : Type} (p : default_pool α)
    (rng : List Nat) :
    (Ev.storeClear ∈ (default_pool.eraseRange p rng).2 ↔
      rng.length = p.storage.entries.length) ∧
    (rng.length = p.storage.entries.length →
      (default_pool.eraseRange p rng).1.entries = []) := by
  by_cases hl : rng.length = p.storage.entries.length
  · constructor
    · constructor
      · intro _
        exact hl
      · intro _
        rw [default_pool.eraseRange, if_pos hl]
        simp
    · intro _
      rw [default_pool.eraseRange, if_pos hl]
      rfl
  · constructor
    · constructor
      · intro hmem
        rw [default_pool.eraseRange, if_neg hl] at hmem
        exact (storeClear_not_mem_eraseSeqAux p.destruction p.storage rng hmem).elim
      · intro h2
        exact (hl h2).elim
    · intro h2
      exact (hl h2).elim

/-- A concrete pool holding entities 1 and 2 (iteration order `[1, 2]`)
with one destruction probe listener. -/
def cePool : default_pool Nat :=
  default_pool.mk ⟨[(1, 10), (2, 20)]⟩ [] [fun _ st => st] []

/-- C1 counterexample: the range `[2, 1]` satisfies every precondition of
the claim against `cePool` (its length equals the pool's entity count,
every entity is present, no duplicates, a destruction listener is
registered), yet the fast path publishes the destruction signals in range
order `[2, 1]`, not in the pool's current iteration order `[1, 2]`. -/
theorem eraseRange_full_clear_order_counterexample :
    [2, 1].length = cePool.storage.entries.length ∧
    (∀ e ∈ [2, 1], Storage.contains cePool.storage e = true) ∧
    [2, 1].Nodup ∧
    sigh.empty cePool.destruction = false ∧
    Storage.keys cePool.storage = [1, 2] ∧
    pubCalls SigKind.destroy (default_pool.eraseRange cePool [2, 1]).2 =
      [2, 1] ∧
    pubCalls SigKind.destroy (default_pool.eraseRange cePool [2, 1]).2 ≠
      Storage.keys cePool.storage := by
  refine ⟨rfl, by decide, by decide, rfl, rfl, ?_, ?_⟩
  · have hl : ([2, 1] : List Nat).length = cePool.storage.entries.length := rfl
    rw [default_pool.eraseRange, if_pos hl]
    show pubCalls SigKind.destroy
      ((default_pool.publishEach cePool.destruction SigKind.destroy [2, 1]
        cePool.storage).2 ++ [Ev.storeClear]) = [2, 1]
    rw [pubCalls_append, pubCalls_publishEach]
    rfl
  · have hl : ([2, 1] : List Nat).length = cePool.storage.entries.length := rfl
    rw [default_pool.eraseRange, if_pos hl]
    show pubCalls SigKind.destroy
      ((default_pool.publishEach cePool.destruction SigKind.destroy [2, 1]
        cePool.storage).2 ++ [Ev.storeClear]) ≠ Storage.keys cePool.storage
    rw [pubCalls_append, pubCalls_publishEach]
    decide

/-- C1 (amended): when the range length equals the pool's entity count,
the range's entities are all present and it has no duplicates, the range
`erase` publishes exactly one destruction signal per entity of the range —
a permutation of the pool's current entities — in the order of the range
(not necessarily the pool's iteration order), and only when at least one
destruction listener is registered; it then removes every entry through a
single bulk clear, with no per-entity storage erase. -/
theorem eraseRange_full_clear_spec {α : Type} (p : default_pool α)
    (rng : List Nat)
    (hlen : rng.length = p.storage.entries.length)
    (hpres : ∀ e ∈ rng, Storage.contains p.storage e = true)
    (hnd : rng.Nodup) :
    pubCalls SigKind.destroy (default_pool.eraseRange p rng).2 =
      (if sigh.empty p.destruction = true then [] else rng) ∧
    List.Perm rng (Storage.keys p.storage) ∧
    countClears (default_pool.eraseRange p rng).2 = 1 ∧
    countErases (default_pool.eraseRange p rng).2 = 0 ∧
    (default_pool.eraseRange p rng).1.entries = [] := by
  have hsub : rng ⊆ Storage.keys p.storage := by
    intro e he
    exact (Storage.contains_iff_mem_keys p.storage e).mp (hpres e he)
  have hklen : (Storage.keys p.storage).length = rng.length := by
    rw [Storage.keys, List.length_map, hlen]
  have hperm : List.Perm rng (Storage.keys p.storage) :=
    (hnd.subperm hsub).perm_of_length_le (Nat.le_of_eq hklen)
  rw [default_pool.eraseRange, if_pos hlen]
  cases hd : p.destruction with
  | nil =>
    exact ⟨rfl, hperm, rfl, rfl, rfl⟩
  | cons l t =>
    refine ⟨?_, hperm, ?_, ?_, rfl⟩
    · show pubCalls SigKind.destroy
        ((default_pool.publishEach (l :: t) SigKind.destroy rng
          p.storage).2 ++ [Ev.storeClear]) = rng
      rw [pubCalls_append, pubCalls_publishEach]
      simp [pubCalls]
    · show countClears
        ((default_pool.publishEach (l :: t) SigKind.destroy rng
          p.storage).2 ++ [Ev.storeClear]) = 1
      rw [countClears_append, countClears_publishEach]
      rfl
    · show countErases
        ((default_pool.publishEach (l :: t) SigKind.destroy rng
          p.storage).2 ++ [Ev.storeClear]) = 0
      rw [countErases_append, countErases_publishEach]
      rfl

/-- C6: erasing the pool's full current entity set (its iteration order)
through the batch `erase` empties the pool exactly as erasing each of those
entities individually does, with the same total number of
destruction-listener invocations; the batch form performs exactly one
storage-level clear and zero individual storage erases, while the
individual form performs one storage erase per entity and no clear. -/
theorem erase_full_set_batch_vs_individual {α : Type} (p : default_pool α)
    (hpure : pureListeners p.destruction) :
    (default_pool.eraseRange p (Storage.keys p.storage)).1.entries = [] ∧
    (default_pool.eraseSeq p (Storage.keys p.storage)).1.entries = [] ∧
    countInvokes (default_pool.eraseRange p (Storage.keys p.storage)).2 =
      countInvokes (default_pool.eraseSeq p (Storage.keys p.storage)).2 ∧
    countClears (default_pool.eraseRange p (Storage.keys p.storage)).2 = 1 ∧
    countErases (default_pool.eraseRange p (Storage.keys p.storage)).2 = 0 ∧
    countErases (default_pool.eraseSeq p (Storage.keys p.storage)).2 =
      (Storage.keys p.storage).length ∧
    countClears (default_pool.eraseSeq p (Storage.keys p.storage)).2 = 0 := by
  have hlen : (Storage.keys p.storage).length = p.storage.entries.length := by
    rw [Storage.keys, List.length_map]
  have hseqfst :
      (default_pool.eraseSeq p (Storage.keys p.storage)).1.entries = [] := by
    rw [default_pool.eraseSeq,
      eraseSeqAux_fst_pure p.destruction p.storage (Storage.keys p.storage) hpure]
    exact foldl_erase_entries_nil (Storage.keys p.storage) p.storage
      (fun k hk => hk)
  have hseqinv :
      countInvokes (default_pool.eraseSeq p (Storage.keys p.storage)).2 =
        (Storage.keys p.storage).length * p.destruction.length :=
    countInvokes_eraseSeqAux p.destruction p.storage (Storage.keys p.storage)
  have hseqerase :
      countErases (default_pool.eraseSeq p (Storage.keys p.storage)).2 =
        (Storage.keys p.storage).length :=
    countErases_eraseSeqAux p.destruction p.storage (Storage.keys p.storage)
  have hseqclear :
      countClears (default_pool.eraseSeq p (Storage.keys p.storage)).2 = 0 :=
    countClears_eraseSeqAux p.destruction p.storage (Storage.keys p.storage)
  rw [default_pool.eraseRange, if_pos hlen]
  cases hd : p.destruction with
  | nil =>
    refine ⟨rfl, hseqfst, ?_, rfl, rfl, hseqerase, hseqclear⟩
    rw [hseqinv, hd]
    rfl
  | cons l t =>
    refine ⟨rfl, hseqfst, ?_, ?_, ?_, hseqerase, hseqclear⟩
    · rw [hseqinv, hd]
      show countInvokes
        ((default_pool.publishEach (l :: t) SigKind.destroy
          (Storage.keys p.storage) p.storage).2 ++ [Ev.storeClear]) =
        (Storage.keys p.storage).length * (l :: t).length
      rw [countInvokes_append, countInvokes_publishEach]
      rfl
    · show countClears
        ((default_pool.publishEach (l :: t) SigKind.destroy
          (Storage.keys p.storage) p.storage).2 ++ [Ev.storeClear]) = 1
      rw [countClears_append, countClears_publishEach]
      rfl
    · show countErases
        ((default_pool.publishEach (l :: t) SigKind.destroy
          (Storage.keys p.storage) p.storage).2 ++ [Ev.storeClear]) = 0
      rw [countErases_append, countErases_publishEach]
      rfl

/-- A listener that only observes (the counting/probing listener stub of
the spec's test properties). -/
def probeListener {α : Type} : Listener α := fun _ st => st

theorem probeListener_pure {α : Type} :
    pureListeners ([probeListener] : sigh α) := by
  intro l hl e st
  rw [List.mem_singleton] at hl
  subst hl
  rfl

/-- Concrete pool with entities 3 and 4 and one destruction probe listener. -/
def wPool2 : default_pool Nat :=
  default_pool.mk ⟨[(3, 5), (4, 6)]⟩ [] [probeListener] []

/-- Concrete empty pool with one construction probe listener. -/
def wPool3 : default_pool Nat :=
  default_pool.mk ⟨[]⟩ [probeListener] [] []

/-- Concrete pool with one entity and no listeners. -/
def wPool5 : default_pool Nat :=
  default_pool.mk ⟨[(1, 10)]⟩ [] [] []

/-- Concrete empty pool whose single construction listener overwrites the
component of entity 1 with 42 during the publish. -/
def wPool10 : default_pool Nat :=
  default_pool.mk ⟨[]⟩ [setValueListener 1 42] [] []

/-- Concrete zero-size-component pool holding entity 2. -/
def wEto : eto_pool := eto_pool.mk ⟨[2]⟩ 1 2 3

/-- Witness for the amended C1 at `cePool` with the permuted range `[2, 1]`. -/
theorem eraseRange_full_clear_spec_witness :
    pubCalls SigKind.destroy (default_pool.eraseRange cePool [2, 1]).2 =
      (if sigh.empty cePool.destruction = true then [] else [2, 1]) ∧
    List.Perm [2, 1] (Storage.keys cePool.storage) ∧
    countClears (default_pool.eraseRange cePool [2, 1]).2 = 1 ∧
    countErases (default_pool.eraseRange cePool [2, 1]).2 = 0 ∧
    (default_pool.eraseRange cePool [2, 1]).1.entries = [] :=
  eraseRange_full_clear_spec cePool [2, 1] rfl (by decide) (by decide)

/-- Witness for C2 at `wPool2`, erasing entity 3. -/
theorem erase_signal_before_removal_witness :
    (∀ st2 ∈ sigh.listenerInputs wPool2.destruction 3 wPool2.storage,
      Storage.contains st2 3 = true) ∧
    (default_pool.erase wPool2 3).2 =
      (sigh.publish wPool2.destruction SigKind.destroy 3 wPool2.storage).2 ++
        [Ev.storeErase 3] ∧
    Storage.contains (default_pool.erase wPool2 3).1 3 = false :=
  erase_signal_before_removal wPool2 3 (by decide) probeListener_pure

/-- Witness for C3 at `wPool3`, inserting the range `[1, 2]`. -/
theorem insert_publishes_after_batch_insert_witness :
    (default_pool.insert wPool3 [1, 2] 5).2.head? =
      some (Ev.storeInsert [1, 2]) ∧
    pubCalls SigKind.construct (default_pool.insert wPool3 [1, 2] 5).2 =
      (if sigh.empty wPool3.construction = true then [] else [1, 2]) ∧
    (wPool3.construction = [] →
      (default_pool.insert wPool3 [1, 2] 5).2 = [Ev.storeInsert [1, 2]]) :=
  insert_publishes_after_batch_insert wPool3 [1, 2] 5 (by decide)

/-- Witness for C4 at `wPool3` (entity 1, value 9) and at `wEto`
(entity 4). -/
theorem emplace_constructs_then_signals_witness :
    (default_pool.emplace wPool3 1 9).events =
      Ev.storeEmplace 1 ::
        (sigh.publish wPool3.construction SigKind.construct 1
          (Storage.emplace wPool3.storage 1 9)).2 ∧
    pubCalls SigKind.construct (default_pool.emplace wPool3 1 9).events =
      [1] ∧
    (wPool3.construction = [] →
      (default_pool.emplace wPool3 1 9).ret = some 9) ∧
    (eto_pool.emplaceEto wEto 4).1.entries = wEto.storage.entries ++ [4] ∧
    (eto_pool.emplaceEto wEto 4).2 =
      Ev.storeEmplace 4 :: etoPublish wEto.constructionN SigKind.construct 4 ∧
    pubCalls SigKind.construct (eto_pool.emplaceEto wEto 4).2 = [4] :=
  emplace_constructs_then_signals wPool3 1 9 wEto 4 (by decide)

/-- Witness for C5 at `wPool5` with the two mutators `(+1)` then `(*2)`. -/
theorem patch_applies_funcs_then_signals_witness :
    Storage.get
      (default_pool.applyFuncs wPool5.storage 1
        [fun x => x + 1, fun x => x * 2]) 1 =
      some (([fun x => x + 1, fun x => x * 2] : List (Nat → Nat)).foldl
        (fun a f => f a) 10) ∧
    (default_pool.patch wPool5 1 [fun x => x + 1, fun x => x * 2]).events =
      (sigh.publish wPool5.update SigKind.updateEv 1
        (default_pool.applyFuncs wPool5.storage 1
          [fun x => x + 1, fun x => x * 2])).2 ∧
    pubCalls SigKind.updateEv
      (default_pool.patch wPool5 1
        [fun x => x + 1, fun x => x * 2]).events = [1] ∧
    (wPool5.update = [] →
      (default_pool.patch wPool5 1 [fun x => x + 1, fun x => x * 2]).ret =
        some (([fun x => x + 1, fun x => x * 2] : List (Nat → Nat)).foldl
          (fun a f => f a) 10)) :=
  patch_applies_funcs_then_signals wPool5 1 10
    [fun x => x + 1, fun x => x * 2] rfl

/-- Witness for C6 at `wPool2` (two entities, one destruction probe
listener). -/
theorem erase_full_set_batch_vs_individual_witness :
    (default_pool.eraseRange wPool2 (Storage.keys wPool2.storage)).1.entries =
      [] ∧
    (default_pool.eraseSeq wPool2 (Storage.keys wPool2.storage)).1.entries =
      [] ∧
    countInvokes
      (default_pool.eraseRange wPool2 (Storage.keys wPool2.storage)).2 =
      countInvokes
        (default_pool.eraseSeq wPool2 (Storage.keys wPool2.storage)).2 ∧
    countClears
      (default_pool.eraseRange wPool2 (Storage.keys wPool2.storage)).2 = 1 ∧
    countErases
      (default_pool.eraseRange wPool2 (Storage.keys wPool2.storage)).2 = 0 ∧
    countErases
      (default_pool.eraseSeq wPool2 (Storage.keys wPool2.storage)).2 =
      (Storage.keys wPool2.storage).length ∧
    countClears
      (default_pool.eraseSeq wPool2 (Storage.keys wPool2.storage)).2 = 0 :=
  erase_full_set_batch_vs_individual wPool2 probeListener_pure

/-- Witness for C7 at `wEto`, patching entity 2 with one (ignored)
function. -/
theorem patch_eto_signals_without_value_witness :
    eto_pool.patchEto wEto 2 [fun _ => ()] = eto_pool.patchEto wEto 2 [] ∧
    (eto_pool.patchEto wEto 2 [fun _ => ()]).1 = wEto.storage ∧
    pubCalls SigKind.updateEv (eto_pool.patchEto wEto 2 [fun _ => ()]).2 =
      [2] ∧
    (eto_pool.patchEto wEto 2 [fun _ => ()]).2 =
      etoPublish wEto.updateN SigKind.updateEv 2 :=
  patch_eto_signals_without_value wEto 2 [fun _ => ()] (by decide)

/-- Witness for C9 at `wPool5`: the range `[9]` names an absent entity yet
matches the pool's entity count, and the bulk-clear path is taken. -/
theorem eraseRange_fast_path_iff_count_match_witness :
    Ev.storeClear ∈ (default_pool.eraseRange wPool5 [9]).2 ∧
    (default_pool.eraseRange wPool5 [9]).1.entries = [] ∧
    Storage.contains wPool5.storage 9 = false :=
  ⟨(eraseRange_fast_path_iff_count_match wPool5 [9]).1.mpr rfl,
   (eraseRange_fast_path_iff_count_match wPool5 [9]).2 rfl,
   by decide⟩

/-- Witness for C10 at `wPool10`: `emplace` constructs the value 7 for
entity 1, the construction listener overwrites it with 42 during the
publish, and the returned reference designates 42. -/
theorem emplace_patch_return_fresh_lookup_witness :
    (default_pool.emplace wPool10 1 7).ret =
      Storage.get (default_pool.emplace wPool10 1 7).state 1 ∧
    (default_pool.emplace wPool10 1 7).ret = some 42 :=
  ⟨(emplace_patch_return_fresh_lookup wPool10 1 7 42 [] (by decide)).1,
   (emplace_patch_return_fresh_lookup wPool10 1 7 42 [] (by decide)).2.2 rfl⟩
